import Mathlib

/-!
Verification of the text-replacement resolver and page-rotation scripts of
the `ilovepdfs` repository.

The Python sources are shallowly embedded as executable Lean definitions:

* `PdfRotate.rotate_pdf` models `scripts/pdf_rotate.py::rotate_pdf`.
* The `PdfReplace` namespace models `scripts/pdf_replace_text.py`:
  `replace_text_at_positions` (coordinate conversion, span/line matching,
  the insertion fallback cascade, per-page grouping of requests) and the
  input guards of `replace_text_in_pdf`.

Coordinates and sizes are modelled as rationals (the Python floats involved
are ratios and sums of small decimal inputs; every comparison the claims
depend on is exactly representable).  File I/O, logging and the PyMuPDF
calls are modelled by their observable effect on the control flow: an
insertion attempt is an oracle outcome (success / raised exception /
character-fit count), a redaction is recorded as an effect.
-/

namespace PdfReplace

/-- Python `str.isspace` characters relevant to `str.strip` / `\s`:
space, tab, newline, carriage return, vertical tab, form feed. -/
def pyIsSpace (c : Char) : Bool :=
  c == ' ' || c == '\t' || c == '\n' || c == '\r' || c == '\x0b' || c == '\x0c'

/-- Python `str.strip()`: drop leading and trailing whitespace. -/
def pyStrip (s : String) : String :=
  ⟨((s.data.dropWhile pyIsSpace).reverse.dropWhile pyIsSpace).reverse⟩

/-- Remove every whitespace character (`re.sub(r'\s+', '', ·)`). -/
def removeAllWs (s : String) : String :=
  ⟨s.data.filter (fun c => !(pyIsSpace c))⟩

/-- `normalize_text` from `replace_text_at_positions` (line 497):
strip, then delete all whitespace. -/
def normalizeText (s : String) : String :=
  removeAllWs (pyStrip s)

/-- Python `s.split()` (no separator): maximal runs of non-whitespace
characters, in order.  `acc` holds the current run reversed. -/
def pySplitAux : List Char → List Char → List String
  | [], acc => if acc.isEmpty then [] else [⟨acc.reverse⟩]
  | c :: rest, acc =>
    if pyIsSpace c then
      if acc.isEmpty then pySplitAux rest [] else ⟨acc.reverse⟩ :: pySplitAux rest []
    else pySplitAux rest (c :: acc)

def pySplit (s : String) : List String := pySplitAux s.data []

/-- Python `' '.join(ts)`. -/
def joinSpace : List String → String
  | [] => ""
  | [t] => t
  | t :: rest => t ++ " " ++ joinSpace rest

/-- Python `' '.join(s.split())`: collapse whitespace runs to single spaces.
(The code sometimes writes `' '.join(s.strip().split())`; the leading
`strip` does not change the token list produced by `split()`.) -/
def collapseWs (s : String) : String :=
  joinSpace (pySplit s)

/-- `a` occurs contiguously in `b`, starting at some position. -/
def subListOf (a : List Char) : List Char → Bool
  | [] => a.isEmpty
  | c :: rest => List.isPrefixOf a (c :: rest) || subListOf a rest

/-- Python `a in b` on strings: `a` occurs as a contiguous substring of `b`
(the empty string is a substring of everything, as in Python). -/
def substrOf (a b : String) : Bool :=
  subListOf a.data b.data

/-- `is_line_replacement = ' ' in old_text.strip()` (line 284): the code
tests for the space character specifically. -/
def isLineReplacement (oldText : String) : Bool :=
  (pyStrip oldText).data.contains ' '

/-- Remove space characters only (Python `.replace(' ', '')`, line 601). -/
def removeSpaces (s : String) : String :=
  ⟨s.data.filter (fun c => c != ' ')⟩

/-- A text span as extracted by `page.get_text("dict")`: raw text, bounding
box in top-left-origin page points, font size, font name, packed RGB color. -/
structure BBox where
  x0 : ℚ
  y0 : ℚ
  x1 : ℚ
  y1 : ℚ
deriving DecidableEq

structure RawSpan where
  text : String
  bbox : BBox
  size : ℚ
  font : String
  color : Nat
deriving DecidableEq

/-- One raw line of the extraction dict (its `"spans"` list).  Blocks
without a `"lines"` key contribute nothing and are dropped when a page is
flattened to its raw lines, preserving order. -/
abbrev RawLine := List RawSpan

/-- A span admitted to a line, paired with its stripped text (the code
stores `{'span': span, 'bbox': bbox, 'text': span_text}` with
`span_text = span['text'].strip()`, lines 469-473). -/
structure MemberSpan where
  span : RawSpan
  text : String
deriving DecidableEq

/-- Loop state of the line-grouping pass (lines 449-480): first vertical
center seen (`line_y`), members, joined text, running `line_min_x`
(initially `float('inf')`, modelled as `none`) and running `line_max_x`
(initially `0`, exactly as in the code). -/
structure LineSt where
  lineY : Option ℚ
  members : List MemberSpan
  text : String
  minX : Option ℚ
  maxX : ℚ
deriving DecidableEq

def spanCenterY (s : RawSpan) : ℚ := (s.bbox.y0 + s.bbox.y1) / 2

/-- Body of the span loop, lines 455-480: skip empty-after-strip spans; the
first non-empty span fixes `line_y`; a span joins the line when its center
is within the tolerance (1000) of `line_y`. -/
def lineStep (st : LineSt) (s : RawSpan) : LineSt :=
  let t := pyStrip s.text
  if t.isEmpty then st
  else
    let cy := spanCenterY s
    let ly := match st.lineY with | none => cy | some v => v
    if |cy - ly| < 1000 then
      { lineY := some ly
        members := st.members ++ [⟨s, t⟩]
        text := if st.text.isEmpty then t else st.text ++ " " ++ t
        minX := some (match st.minX with | none => s.bbox.x0 | some m => min m s.bbox.x0)
        maxX := max st.maxX s.bbox.x1 }
    else { st with lineY := some ly }

/-- A grouped Line (lines 482-489): members, stripped joined text, the
`line_y` center, and the running x extents. -/
structure LineData where
  spans : List MemberSpan
  text : String
  y : ℚ
  minX : ℚ
  maxX : ℚ
deriving DecidableEq

def lineInit : LineSt := ⟨none, [], "", none, 0⟩

/-- Lines 448-489: fold the raw spans and keep the line when it has members
and non-blank joined text.  (When members exist, `line_y` and `line_min_x`
have necessarily been set; the wildcard branch is unreachable then.) -/
def buildLine (raw : RawLine) : Option LineData :=
  let st := raw.foldl lineStep lineInit
  if st.members.isEmpty || (pyStrip st.text).isEmpty then none
  else
    match st.lineY, st.minX with
    | some y, some mx => some ⟨st.members, pyStrip st.text, y, mx, st.maxX⟩
    | _, _ => none

def buildLines (page : List RawLine) : List LineData := page.filterMap buildLine

/-- Minimum of a list of rationals (`none` on `[]`); reference definition
for the running minima the code starts at `float('inf')`. -/
def minQ : List ℚ → Option ℚ
  | [] => none
  | v :: rest => some ((minQ rest).elim v (fun m => min v m))

/-- Maximum of a list of rationals (`none` on `[]`). -/
def maxQ : List ℚ → Option ℚ
  | [] => none
  | v :: rest => some ((maxQ rest).elim v (fun m => max v m))

/-- `line_bbox_y0`, lines 633-641: running min from `float('inf')` over the
member spans, i.e. the true minimum for a non-empty member list. -/
def lineBBoxY0 (ld : LineData) : Option ℚ :=
  minQ (ld.spans.map (fun m => m.span.bbox.y0))

/-- `line_bbox_y1`, lines 635-642: a max-fold that starts at `0`, exactly
as in the code. -/
def lineBBoxY1 (ld : LineData) : ℚ :=
  (ld.spans.map (fun m => m.span.bbox.y1)).foldl max 0

/-- Span-level text comparison, lines 308-309:
`old_text.strip().lower() == span_text.lower() or old_text.strip() == span_text`
(where `span_text` is already stripped). -/
def spanTextMatch (old : String) (spanText : String) : Bool :=
  (pyStrip old).toLower == spanText.toLower || pyStrip old == spanText

structure SpanPick where
  span : RawSpan
  text : String
  distSq : ℚ
deriving DecidableEq

/-- Span-level matching, lines 291-327: over all spans in order, keep the
matching span of smallest center distance to the target, subject to
`total_distance < tolerance * 2` with `tolerance = 1000`.  Distances are
compared squared (the square root is strictly monotone, so every
comparison agrees with the float code's `< 2000` and `< best`). -/
def spanStep (old : String) (tx ty : ℚ) (best : Option SpanPick) (s : RawSpan) : Option SpanPick :=
  let st := pyStrip s.text
  if st.isEmpty then best
  else if spanTextMatch old st then
    let cx := (s.bbox.x0 + s.bbox.x1) / 2
    let cy := (s.bbox.y0 + s.bbox.y1) / 2
    let dSq := (cx - tx) * (cx - tx) + (cy - ty) * (cy - ty)
    if decide (dSq < 4000000) &&
        (match best with | none => true | some b => decide (dSq < b.distSq)) then
      some ⟨s, st, dSq⟩
    else best
  else best

def spanMatch (old : String) (tx ty : ℚ) (page : List RawLine) : Option SpanPick :=
  (page.foldl (fun acc raw => acc ++ raw) []).foldl (spanStep old tx ty) none

/-- Step-1 test of the line matcher (line 535): exact equality of the
whitespace-free lower-cased texts. -/
def lineExact (old : String) (ld : LineData) : Bool :=
  (normalizeText old).toLower == (normalizeText ld.text).toLower

/-- Steps 1-2 of line matching, lines 517-550: scan the lines in order and
stop at the first one matching exactly (score 0) or by containment in
either direction (score 1). -/
def lineMatch12 (old : String) : List LineData → Option (LineData × ℚ)
  | [] => none
  | ld :: rest =>
    let f := (normalizeText old).toLower
    let p := (normalizeText ld.text).toLower
    if f == p then some (ld, 0)
    else if substrOf f p then some (ld, 1)
    else if substrOf p f then some (ld, 1)
    else lineMatch12 old rest

def charFinset (s : String) : Finset Char := s.data.toFinset

/-- Jaccard similarity of two character sets, lines 575-577 (including the
code's `if union > 0 else 0` guard). -/
def jaccardSim (a b : Finset Char) : ℚ :=
  if 0 < (a ∪ b).card then ((a ∩ b).card : ℚ) / ((a ∪ b).card : ℚ) else 0

/-- Step-3 acceptance test, lines 570-580: both character sets non-empty
and (similarity strictly above 0.8, or substring containment in either
direction of the normalized lower-cased texts). -/
def fuzzyAccept (old : String) (ld : LineData) : Bool :=
  let no := (normalizeText old).toLower
  let nl := (normalizeText ld.text).toLower
  let oc := charFinset no
  let lc := charFinset nl
  if oc ≠ ∅ ∧ lc ≠ ∅ then
    decide ((4 : ℚ)/5 < jaccardSim oc lc) || substrOf no nl || substrOf nl no
  else false

/-- Step 3 of line matching, lines 563-584: first accepted line, score 2. -/
def fuzzyMatch (old : String) : List LineData → Option (LineData × ℚ)
  | [] => none
  | ld :: rest => if fuzzyAccept old ld then some (ld, 2) else fuzzyMatch old rest

/-- Single-word text test, lines 594-605: equality/containment of the
space-collapsed line text against the whitespace-free old text, with a
strict-threshold character-set fallback (no substring disjunct there). -/
def swTextMatch (old : String) (ld : LineData) : Bool :=
  let no := (normalizeText old).toLower
  let nl := (collapseWs ld.text).toLower
  if no == nl || substrOf no nl || substrOf nl no then true
  else
    let oc := charFinset (removeSpaces no)
    let lc := charFinset (removeSpaces nl)
    if oc ≠ ∅ ∧ lc ≠ ∅ then decide ((4 : ℚ)/5 < jaccardSim oc lc) else false

/-- Position-aware single-word line matching, lines 587-619: distance of
the target to the line's x interval and y center, accepted below
`tolerance * 5` (5000), best (squared) distance wins, first wins ties. -/
def swMatch (old : String) (tx ty : ℚ) (lines : List LineData) : Option (LineData × ℚ) :=
  lines.foldl (fun best ld =>
    if swTextMatch old ld then
      let xd : ℚ := if tx < ld.minX then ld.minX - tx else if ld.maxX < tx then tx - ld.maxX else 0
      let yd : ℚ := ld.y - ty
      let dSq := xd * xd + yd * yd
      if decide (dSq < 25000000) &&
          (match best with | none => true | some b => decide (dSq < b.2)) then
        some (ld, dSq)
      else best
    else best) none

/-- The complete line-level matcher (lines 491-619): for whitespace
requests steps 1-2 then fuzzy; for single-token requests the
position-aware matcher (steps 1-3 are inside `if is_line_replacement`). -/
def lineMatchFull (old : String) (tx ty : ℚ) (lines : List LineData) : Option (LineData × ℚ) :=
  if isLineReplacement old then
    match lineMatch12 old lines with
    | some r => some r
    | none => fuzzyMatch old lines
  else swMatch old tx ty lines

/-- Last-resort exact matching of one raw line, lines 786-798: non-empty
stripped span texts joined by single spaces, compared space-collapsed and
lower-cased for equality only. -/
def lastLineMatch (old : String) (raw : RawLine) : Option (List RawSpan) :=
  let members := raw.filter (fun s => !(pyStrip s.text).isEmpty)
  if members.isEmpty then none
  else
    let combined := joinSpace (members.map (fun s => pyStrip s.text))
    if (collapseWs (pyStrip old)).toLower == (collapseWs (pyStrip combined)).toLower then
      some members
    else none

/-- Coordinate conversion, lines 236-265: with positive frontend page
dimensions, multiply each axis by PDF-points-per-pixel; otherwise the
hard-coded fallback `pixels / 2.0 * 0.75`. -/
def convertAnchor (pdfW pdfH pxW pxH x y : ℚ) : ℚ × ℚ :=
  if 0 < pxW ∧ 0 < pxH then (x * (pdfW / pxW), y * (pdfH / pxH))
  else (x / 2 * (3/4), y / 2 * (3/4))

/-- Line 273: `if not old_text: continue` — only the strictly empty string
is skipped in JSON batch mode. -/
def batchSkips (old : String) : Bool := old.isEmpty

/-- Input guards of `replace_text_in_pdf`, lines 36-42: missing file or
empty/blank `old_text` return `False` (`some false`); otherwise the
function proceeds (`none`). -/
def replaceTextInPdfEarly (fileExists : Bool) (old : String) : Option Bool :=
  if !fileExists then some false
  else if old.isEmpty || (pyStrip old).isEmpty then some false
  else none

/-- Outcome oracle for the PyMuPDF insertion calls: whether the span-path,
line-path and last-resort insertion cascades eventually succeed.  (The
internal strategy order of a cascade is modelled separately by
`cascadeRun`.) -/
structure InsOracle where
  spanOk : Bool
  lineOk : Bool
  lastOk : Bool
deriving DecidableEq

/-- Observable page mutations of one request: a white-fill redaction of a
rectangle, or an insertion of the new text. -/
inductive Action
  | redact (x0 y0 x1 y1 : ℚ)
  | insertNew
deriving DecidableEq

/-- Which stage produced the replacement (if any). -/
inductive UsedPath
  | spanPath
  | linePath
  | lastPath
  | nonePath
deriving DecidableEq

structure ReqResult where
  actions : List Action
  delta : Nat
  brk : Bool
  path : UsedPath
deriving DecidableEq

/-- Span-path redaction rectangle, line 340: the exact span bbox. -/
def spanRedactRect (sp : SpanPick) : Action :=
  .redact sp.span.bbox.x0 sp.span.bbox.y0 sp.span.bbox.x1 sp.span.bbox.y1

/-- Line-path redaction rectangle, lines 631-645: the running x extents
with the code's min-from-infinity / max-from-zero vertical bounds. -/
def lineRedactRect (ld : LineData) : Action :=
  .redact ld.minX ((lineBBoxY0 ld).getD 0) ld.maxX (lineBBoxY1 ld)

/-- Last-resort redaction rectangle, lines 800-808: the true min/max over
the matched spans, padded by 1pt on every side. -/
def lastRedactRect (ms : List RawSpan) : Action :=
  .redact ((minQ (ms.map (fun s => s.bbox.x0))).getD 0 - 1)
          ((minQ (ms.map (fun s => s.bbox.y0))).getD 0 - 1)
          ((maxQ (ms.map (fun s => s.bbox.x1))).getD 0 + 1)
          ((maxQ (ms.map (fun s => s.bbox.y1))).getD 0 + 1)

/-- Last-resort stage, lines 778-855 (only reached for whitespace
requests): scan raw lines for an exact space-collapsed match; each match
is redacted, then insertion is attempted; on insertion failure the scan
continues with the next raw line.  A success does not interrupt the outer
per-page request loop (no `break` of it on this path). -/
def lastStage (o : InsOracle) (old : String) : List RawLine → ReqResult
  | [] => ⟨[], 0, false, .nonePath⟩
  | raw :: rest =>
    match lastLineMatch old raw with
    | some ms =>
      if o.lastOk then ⟨[lastRedactRect ms, .insertNew], 1, false, .lastPath⟩
      else
        let r := lastStage o old rest
        ⟨lastRedactRect ms :: r.actions, r.delta, r.brk, r.path⟩
    | none => lastStage o old rest

/-- Line stage, lines 438-776: entered when the span path made no
replacement or the request is line-level.  A match is redacted before the
insertion cascade runs, so the redaction happens even when every insertion
attempt fails; a successful insertion `break`s the per-page request loop
(lines 731/752/771).  On failure, whitespace requests fall through to the
last-resort stage (line 778). -/
def lineStage (o : InsOracle) (page : List RawLine) (tx ty : ℚ) (old : String)
    (acc : List Action) : ReqResult :=
  match lineMatchFull old tx ty (buildLines page) with
  | some (ld, _) =>
    if o.lineOk then ⟨acc ++ [lineRedactRect ld, .insertNew], 1, true, .linePath⟩
    else if isLineReplacement old then
      let r := lastStage o old page
      ⟨acc ++ lineRedactRect ld :: r.actions, r.delta, r.brk, r.path⟩
    else ⟨acc ++ [lineRedactRect ld], 0, false, .nonePath⟩
  | none =>
    if isLineReplacement old then
      let r := lastStage o old page
      ⟨acc ++ r.actions, r.delta, r.brk, r.path⟩
    else ⟨acc, 0, false, .nonePath⟩

/-- The span-level block (lines 286-327) runs exactly when the request is
not skipped as empty and has no internal space. -/
def spanAttempted (old : String) : Bool :=
  !batchSkips old && !isLineReplacement old

/-- Processing of a single replacement request against the page's text
snapshot (lines 228-861): empty-skip, span path (single-token only, with
`break` on success at line 400), then the line stage.  When the span-path
insertion cascade fails the redaction has already been applied and the
line stage still runs (`if not found_match or is_line_replacement`,
line 440). -/
def processRequest (o : InsOracle) (page : List RawLine) (tx ty : ℚ)
    (old : String) : ReqResult :=
  if batchSkips old then ⟨[], 0, false, .nonePath⟩
  else
    match (if isLineReplacement old then none else spanMatch old tx ty page) with
    | some sp =>
      if o.spanOk then ⟨[spanRedactRect sp, .insertNew], 1, true, .spanPath⟩
      else lineStage o page tx ty old [spanRedactRect sp]
    | none => lineStage o page tx ty old []

/-- A replacement request of the `--json` mode (lines 228-239):
`pageNum` is 1-indexed; `x`/`y`/`pageWidth`/`pageHeight` are the optional
pixel-space anchor fields (0 when absent, their `.get` defaults). -/
structure Req where
  oldText : String
  newText : String
  pageNum : Int
  x : ℚ
  y : ℚ
  pageWidth : ℚ
  pageHeight : ℚ
deriving DecidableEq

/-- A document page: its point dimensions and extracted raw lines. -/
structure Page where
  width : ℚ
  height : ℚ
  content : List RawLine
deriving DecidableEq

def pageIdx (r : Req) : Int := r.pageNum - 1

/-- Line 210: requests with out-of-range pages are skipped at grouping. -/
def validReq (numPages : Nat) (r : Req) : Bool :=
  decide (0 ≤ pageIdx r) && decide (pageIdx r < (numPages : Int))

def reqKey (r : Req) : Nat := (pageIdx r).toNat

/-- One step of building `replacements_by_page` (lines 207-216): append to
an existing page's list, else add the page at the end (Python dicts
iterate in key-insertion order). -/
def groupInsert (acc : List (Nat × List Req)) (r : Req) : List (Nat × List Req) :=
  if acc.any (fun e => e.1 == reqKey r) then
    acc.map (fun e => if e.1 == reqKey r then (e.1, e.2 ++ [r]) else e)
  else acc ++ [(reqKey r, [r])]

def groupByPage (reqs : List Req) : List (Nat × List Req) :=
  reqs.foldl groupInsert []

/-- Anchor conversion for a request against its page (lines 236-268). -/
def targetOf (pg : Page) (r : Req) : ℚ × ℚ :=
  convertAnchor pg.width pg.height r.pageWidth r.pageHeight r.x r.y

/-- Whether processing `r` breaks the per-page request loop. -/
def reqBreaks (o : InsOracle) (pg : Page) (r : Req) : Bool :=
  (processRequest o pg.content (targetOf pg r).1 (targetOf pg r).2 r.oldText).brk

/-- The per-page request loop (lines 228-861): requests run in list order
against the page snapshot taken once at line 226; a span- or line-path
success `break`s, abandoning the page's remaining requests.  Returns the
requests actually examined and the page's replacement count. -/
def runPage (o : InsOracle) (pg : Page) : List Req → List Req × Nat
  | [] => ([], 0)
  | r :: rest =>
    let res := processRequest o pg.content (targetOf pg r).1 (targetOf pg r).2 r.oldText
    if res.brk then ([r], res.delta)
    else
      let t := runPage o pg rest
      (r :: t.1, res.delta + t.2)

def pageAt (doc : List Page) (k : Nat) : Page := doc.getD k ⟨0, 0, []⟩

/-- The order in which `replace_text_at_positions` actually examines
requests: valid requests grouped by page, pages in first-occurrence order,
each page's list run until a breaking success. -/
def examinedOrder (o : InsOracle) (doc : List Page) (reqs : List Req) : List Req :=
  (groupByPage (reqs.filter (validReq doc.length))).foldr
    (fun e acc => (runPage o (pageAt doc e.1) e.2).1 ++ acc) []

/-- `replace_text_at_positions` returns `False` only for a missing file or
an empty request list (lines 192-198); otherwise it saves and returns
`True` regardless of how many replacements were made (lines 863-872). -/
def replaceRunSucceeds (fileExists : Bool) (reqs : List Req) : Bool :=
  fileExists && !reqs.isEmpty

/-- First-occurrence order of keys, the iteration order of a Python dict
built by insertion. -/
def firstKeys : List Nat → List Nat
  | [] => []
  | p :: rest => p :: (firstKeys rest).filter (fun q => q != p)

/-- Prefix of a list up to and including the first element satisfying `f`. -/
def takeThrough (f : Req → Bool) : List Req → List Req
  | [] => []
  | r :: rest => if f r then [r] else r :: takeThrough f rest

/-- Outcome of the `insert_textbox` call of the insertion cascade: an
exception, or the returned number of characters that fit. -/
inductive TbOut
  | raised
  | fit (n : Int)
deriving DecidableEq

/-- Outcomes of the four insertion strategies of lines 695-776: the
textbox call, and success (`true`) or exception (`false`) of each of the
three baseline `insert_text` calls (original font, `"helv"`, default). -/
structure CascadeEnv where
  tb : TbOut
  insOrig : Bool
  insHelv : Bool
  insDef : Bool
deriving DecidableEq

inductive CStep
  | tbox
  | baseOrig
  | baseHelv
  | baseDef
deriving DecidableEq

/-- The insertion fallback cascade of the line path, lines 695-776, run on
a replacement whose text has `newTextLen` characters.  Returns the
strategies attempted in order and whether any succeeded.  The baseline
insert with the original font (lines 709-724) sits inside the same
`try` as the textbox call, so an exception from either jumps to the
`"helv"` handler (line 732); an exception raised by the textbox call
therefore skips the original-font baseline insert entirely. -/
def cascadeRun (env : CascadeEnv) (newTextLen : Nat) : List CStep × Bool :=
  match env.tb with
  | .fit n =>
    if decide (n < 0) || decide (n < (newTextLen : Int)) then
      if env.insOrig then ([.tbox, .baseOrig], true)
      else if env.insHelv then ([.tbox, .baseOrig, .baseHelv], true)
      else if env.insDef then ([.tbox, .baseOrig, .baseHelv, .baseDef], true)
      else ([.tbox, .baseOrig, .baseHelv, .baseDef], false)
    else ([.tbox], true)
  | .raised =>
    if env.insHelv then ([.tbox, .baseHelv], true)
    else if env.insDef then ([.tbox, .baseHelv, .baseDef], true)
    else ([.tbox, .baseHelv, .baseDef], false)

/-- The strategies the cascade attempts, written from the amended
description: the textbox call always runs first; the original-font
baseline insert runs only after an incomplete (non-raising) fit; `"helv"`
runs after an exception from the `try` body or the incomplete-fit insert;
the default font runs when `"helv"` raises. -/
def attemptedSpec (env : CascadeEnv) (newTextLen : Nat) : List CStep :=
  match env.tb with
  | .fit n =>
    if decide (n < 0) || decide (n < (newTextLen : Int)) then
      [.tbox, .baseOrig] ++
        (if env.insOrig then []
         else [.baseHelv] ++ (if env.insHelv then [] else [.baseDef]))
    else [.tbox]
  | .raised => [.tbox, .baseHelv] ++ (if env.insHelv then [] else [.baseDef])

/-- Success of the cascade, per the amended description. -/
def successSpec (env : CascadeEnv) (newTextLen : Nat) : Bool :=
  match env.tb with
  | .fit n =>
    if decide (n < 0) || decide (n < (newTextLen : Int)) then
      env.insOrig || env.insHelv || env.insDef
    else true
  | .raised => env.insHelv || env.insDef

/-- Concrete fixtures used by counterexample and witness theorems. -/
def exSpan (t : String) (b : BBox) : RawSpan := ⟨t, b, 12, "f", 0⟩

def c1page : List RawLine := [[exSpan "zab" ⟨0, 0, 10, 10⟩], [exSpan "a b" ⟨0, 20, 10, 30⟩]]

def c4page : List RawLine := [[exSpan "adbce" ⟨0, 0, 10, 10⟩]]

def c5page : List RawLine := [[exSpan "foo" ⟨0, 0, 10, 10⟩]]

def c9pageNeg : List RawLine := [[exSpan "a" ⟨-10, 3, -5, 4⟩]]

def c9pagePos : List RawLine := [[exSpan "ab" ⟨1, 2, 3, 4⟩]]

def c9line : LineData := ⟨[⟨exSpan "ab" ⟨1, 2, 3, 4⟩, "ab"⟩], "ab", 3, 1, 3⟩

def oracleAll : InsOracle := ⟨true, true, true⟩

def pgEmpty : Page := ⟨612, 792, []⟩

def c2doc : List Page := [pgEmpty, pgEmpty]

def c2reqs : List Req :=
  [⟨"a", "n", 1, 0, 0, 0, 0⟩, ⟨"b", "n", 2, 0, 0, 0, 0⟩, ⟨"c", "n", 1, 0, 0, 0, 0⟩]

end PdfReplace

namespace PdfRotate

/-- The rotation angles accepted by `rotate_pdf` (line 37). -/
def validAngles : List Int := [90, 180, 270]

/-- Lines 44-56 of `pdf_rotate.py`: the list of page indices to rotate.
`none` models the `return False` taken when an explicit page list filters
down to nothing.  Pages are kept in list order, duplicates included, as in
the Python list comprehension. -/
def selectedPages (numPages : Nat) (applyToAll : Bool)
    (pageNumbers : Option (List Int)) : Option (List Int) :=
  if applyToAll then
    some ((List.range numPages).map Int.ofNat)
  else
    match pageNumbers with
    | none => some [0]
    | some ps =>
      let kept := ps.filter (fun p => decide (0 ≤ p) && decide (p < (numPages : Int)))
      if kept.isEmpty then none else some kept

/-- Lines 58-66: rotate each selected page in order, adding `rotation` to
its current rotation modulo 360 (`%` on a positive modulus agrees between
Python and `Int.emod`). -/
def applyRot (rotation : Int) (sel : List Int) (pages : List Int) : List Int :=
  sel.foldl (fun acc p => acc.set p.toNat ((acc.getD p.toNat 0 + rotation) % 360)) pages

/-- `rotate_pdf(pdf_path, output_path, rotation, apply_to_all, page_numbers)`.
`pages` holds the input document's per-page rotation values; the result is
`some` of the output rotations on success and `none` where the Python
function returns `False` (missing file, invalid angle, empty page
selection, or an index error reaching the exception handler). -/
def rotate_pdf (fileExists : Bool) (rotation : Int) (applyToAll : Bool)
    (pageNumbers : Option (List Int)) (pages : List Int) : Option (List Int) :=
  if !fileExists then none
  else if !(validAngles.contains rotation) then none
  else
    match selectedPages pages.length applyToAll pageNumbers with
    | none => none
    | some sel =>
      if sel.all (fun p => decide (0 ≤ p) && decide (p < (pages.length : Int))) then
        some (applyRot rotation sel pages)
      else none

end PdfRotate


namespace PdfReplace

/-- C3: with positive pixel-space page dimensions the anchor converts to
page points linearly and independently per axis, by
`pagePoints = externalPixels * (pageDimensionPoints / sourceDimensionPixels)`;
at the spec's concrete dimensions the anchor (100px, 200px) lands at
(50, 100) points. -/
theorem C3_anchor_conversion (pdfW pdfH pxW pxH x y : ℚ)
    (hw : 0 < pxW) (hh : 0 < pxH) :
    convertAnchor pdfW pdfH pxW pxH x y = (x * (pdfW / pxW), y * (pdfH / pxH)) ∧
    convertAnchor 612 792 1224 1584 100 200 = (50, 100) := by
  constructor
  · simp [convertAnchor, hw, hh]
  · with_unfolding_all decide

/-- C3 witness: the conversion theorem applied at the spec's concrete
dimensions. -/
theorem C3_anchor_conversion_witness :
    convertAnchor 612 792 1224 1584 100 200 = (100 * ((612 : ℚ) / 1224), 200 * ((792 : ℚ) / 1584)) ∧
    (100 * ((612 : ℚ) / 1224), 200 * ((792 : ℚ) / 1584)) = ((50 : ℚ), (100 : ℚ)) := by
  exact ⟨(C3_anchor_conversion 612 792 1224 1584 100 200 (by norm_num) (by norm_num)).1,
    by with_unfolding_all decide⟩

/-- C6 counterexample: when the textbox call raises, the cascade jumps
straight to the `"helv"` baseline insert — step 3 is attempted although
step 2 (baseline insert with the original font) was never attempted, so
"each later step is attempted only after the previous step failed" is
false as stated. -/
theorem C6_counterexample :
    (cascadeRun ⟨.raised, true, true, true⟩ 5).1 = [.tbox, .baseHelv] ∧
    CStep.baseOrig ∉ (cascadeRun ⟨.raised, true, true, true⟩ 5).1 ∧
    CStep.baseHelv ∈ (cascadeRun ⟨.raised, true, true, true⟩ 5).1 := by
  decide

/-- C6 (amended): the insertion cascade attempts exactly the strategy
sequence of `attemptedSpec` — textbox first; the original-font baseline
step only after an incomplete non-raising fit; `"helv"` after an exception
from the textbox call or the original-font insert; the default font after
`"helv"` raises — and succeeds exactly when `successSpec` says so;
exhausting the strategies yields `false` (a logged, non-fatal outcome),
never an error value. -/
theorem C6_cascade_order (env : CascadeEnv) (len : Nat) :
    cascadeRun env len = (attemptedSpec env len, successSpec env len) := by
  obtain ⟨tb, io, ih, id'⟩ := env
  cases tb <;> cases io <;> cases ih <;> cases id' <;>
    simp only [cascadeRun, attemptedSpec, successSpec] <;>
    first
      | rfl
      | (split <;> rfl)

end PdfReplace

namespace PdfRotate

theorem applyRot_nil (rotation : Int) (pages : List Int) :
    applyRot rotation [] pages = pages := rfl

theorem applyRot_cons (rotation : Int) (p : Int) (rest : List Int) (pages : List Int) :
    applyRot rotation (p :: rest) pages =
      applyRot rotation rest (pages.set p.toNat ((pages.getD p.toNat 0 + rotation) % 360)) := rfl

theorem applyRot_length (rotation : Int) (sel : List Int) (pages : List Int) :
    (applyRot rotation sel pages).length = pages.length := by
  induction sel generalizing pages with
  | nil => rfl
  | cons p rest ih => rw [applyRot_cons, ih, List.length_set]

/-- Each valid index of the output of `applyRot` holds the old rotation
plus `rotation` (mod 360) when selected, the old rotation otherwise —
provided no page is selected twice. -/
theorem applyRot_getD (rotation : Int) (sel : List Int) (pages : List Int)
    (hnd : sel.Nodup) (hv : ∀ p ∈ sel, 0 ≤ p ∧ p < (pages.length : Int))
    (i : Nat) (hi : i < pages.length) :
    (applyRot rotation sel pages).getD i 0 =
      if ((i : Int)) ∈ sel then (pages.getD i 0 + rotation) % 360
      else pages.getD i 0 := by
  induction sel generalizing pages with
  | nil => simp [applyRot_nil]
  | cons p rest ih =>
    rw [applyRot_cons]
    obtain ⟨hp0, hplt⟩ := hv p (by simp)
    set pages' := pages.set p.toNat ((pages.getD p.toNat 0 + rotation) % 360) with hpages'
    have hlen : pages'.length = pages.length := List.length_set ..
    have hv' : ∀ q ∈ rest, 0 ≤ q ∧ q < (pages'.length : Int) := by
      intro q hq
      rw [hlen]
      exact hv q (List.mem_cons_of_mem _ hq)
    rw [ih pages' (List.nodup_cons.mp hnd).2 hv' (by rw [hlen]; exact hi)]
    by_cases hmem : ((i : Int)) ∈ rest
    · rw [if_pos hmem, if_pos (List.mem_cons_of_mem _ hmem)]
      have hne : p.toNat ≠ i := by
        intro h
        apply (List.nodup_cons.mp hnd).1
        have hpe : p = (i : Int) := by omega
        rw [hpe]
        exact hmem
      rw [hpages', List.getD_eq_getElem?_getD, List.getElem?_set_ne hne,
        ← List.getD_eq_getElem?_getD]
    · by_cases heq : ((i : Int)) = p
      · have hpi : p.toNat = i := by omega
        rw [if_neg hmem, if_pos (by rw [heq]; exact List.mem_cons_self p rest)]
        rw [hpages', List.getD_eq_getElem?_getD, hpi, List.getElem?_set_self hi]
        simp
      · have hnotc : ((i : Int)) ∉ p :: rest := by
          rw [List.mem_cons]
          rintro (h | h)
          · exact heq h
          · exact hmem h
        rw [if_neg hmem, if_neg hnotc]
        have hne : p.toNat ≠ i := by
          intro h
          apply heq
          omega
        rw [hpages', List.getD_eq_getElem?_getD, List.getElem?_set_ne hne,
          ← List.getD_eq_getElem?_getD]

/-- C10 counterexample: a duplicated page selection rotates the page once
per occurrence — `page_numbers = [0, 0]` at 90° leaves page 0 at rotation
180, not at `(0 + 90) % 360 = 90` as the claim states for every selected
page. -/
theorem C10_counterexample :
    rotate_pdf true 90 false (some [0, 0]) [0] = some [180] ∧
    (180 : Int) ≠ (0 + 90) % 360 := by
  exact ⟨by decide, by decide⟩

/-- C10 (amended): `rotate_pdf` fails (producing no output) for every
rotation angle outside {90, 180, 270}; for an accepted angle and a
duplicate-free page selection, every selected page's rotation becomes
(previous + angle) mod 360 and every unselected page keeps its previous
rotation.  (A page selected k times receives k increments, hence the
duplicate-free hypothesis.) -/
theorem C10_rotate (fe : Bool) (rotation : Int) (ata : Bool)
    (pns : Option (List Int)) (pages sel : List Int) :
    (validAngles.contains rotation = false → rotate_pdf fe rotation ata pns pages = none) ∧
    (fe = true → validAngles.contains rotation = true →
      selectedPages pages.length ata pns = some sel → sel.Nodup →
      (∀ p ∈ sel, 0 ≤ p ∧ p < (pages.length : Int)) →
      rotate_pdf fe rotation ata pns pages = some (applyRot rotation sel pages) ∧
      ∀ i, i < pages.length →
        (applyRot rotation sel pages).getD i 0 =
          if ((i : Int)) ∈ sel then (pages.getD i 0 + rotation) % 360
          else pages.getD i 0) := by
  constructor
  · intro hbad
    unfold rotate_pdf
    cases fe
    · simp
    · rw [hbad]
      simp
  · intro hfe hrot hsel hnd hv
    subst hfe
    have hall : sel.all (fun p => decide (0 ≤ p) && decide (p < (pages.length : Int))) = true := by
      rw [List.all_eq_true]
      intro p hp
      have := hv p hp
      simp [this.1, this.2]
    constructor
    · unfold rotate_pdf
      rw [hrot, hsel]
      simp only [hall]
      simp
    · intro i hi
      exact applyRot_getD rotation sel pages hnd hv i hi

/-- C10 witness: the rotation theorem applied to a 2-page document rotated
90° in whole-document mode, and to the invalid angle 45. -/
theorem C10_rotate_witness :
    rotate_pdf true 45 true none [0] = none ∧
    rotate_pdf true 90 true none [0, 90] = some (applyRot 90 [0, 1] [0, 90]) ∧
    (applyRot 90 [0, 1] [0, 90]).getD 1 0 =
      (if (((1 : Nat)) : Int) ∈ ([0, 1] : List Int) then ((90 : Int) + 90) % 360 else 90) := by
  refine ⟨(C10_rotate true 45 true none [0] []).1 (by decide), ?_, ?_⟩
  · exact ((C10_rotate true 90 true none [0, 90] [0, 1]).2 rfl (by decide) (by decide)
      (by decide) (by decide)).1
  · exact ((C10_rotate true 90 true none [0, 90] [0, 1]).2 rfl (by decide) (by decide)
      (by decide) (by decide)).2 1 (by decide)

end PdfRotate

namespace PdfReplace

theorem minQ_append_one (l : List ℚ) (v : ℚ) :
    minQ (l ++ [v]) = some ((minQ l).elim v (fun m => min m v)) := by
  induction l with
  | nil => rfl
  | cons h t ih =>
    rw [List.cons_append]
    rw [show minQ (h :: (t ++ [v])) = some ((minQ (t ++ [v])).elim h (fun m => min h m)) from rfl]
    rw [ih]
    rw [show minQ (h :: t) = some ((minQ t).elim h (fun m => min h m)) from rfl]
    cases ht : minQ t <;> simp [min_assoc]

theorem foldl_max_eq_maxQ (l : List ℚ) (a : ℚ) :
    l.foldl max a = (maxQ l).elim a (fun m => max a m) := by
  induction l generalizing a with
  | nil => rfl
  | cons h t ih =>
    simp only [List.foldl_cons, maxQ, ih]
    cases ht : maxQ t <;> simp [max_assoc]

theorem maxQ_mem (l : List ℚ) (m : ℚ) (h : maxQ l = some m) : m ∈ l := by
  induction l generalizing m with
  | nil => simp [maxQ] at h
  | cons v t ih =>
    rw [maxQ] at h
    rw [Option.some.injEq] at h
    cases ht : maxQ t with
    | none =>
      rw [ht] at h
      simp only [Option.elim] at h
      rw [← h]
      exact List.mem_cons_self ..
    | some w =>
      rw [ht] at h
      simp only [Option.elim] at h
      rw [← h]
      rcases max_choice v w with hc | hc <;> rw [hc]
      · exact List.mem_cons_self ..
      · exact List.mem_cons_of_mem _ (ih w ht)

theorem minQ_mem (l : List ℚ) (m : ℚ) (h : minQ l = some m) : m ∈ l := by
  induction l generalizing m with
  | nil => simp [minQ] at h
  | cons v t ih =>
    rw [minQ] at h
    rw [Option.some.injEq] at h
    cases ht : minQ t with
    | none =>
      rw [ht] at h
      simp only [Option.elim] at h
      rw [← h]
      exact List.mem_cons_self ..
    | some w =>
      rw [ht] at h
      simp only [Option.elim] at h
      rw [← h]
      rcases min_choice v w with hc | hc <;> rw [hc]
      · exact List.mem_cons_self ..
      · exact List.mem_cons_of_mem _ (ih w ht)

theorem minQ_le (l : List ℚ) (m : ℚ) (h : minQ l = some m) :
    ∀ v ∈ l, m ≤ v := by
  induction l generalizing m with
  | nil => simp [minQ] at h
  | cons v t ih =>
    rw [minQ] at h
    rw [Option.some.injEq] at h
    intro w hw
    rcases List.mem_cons.mp hw with hw | hw
    · subst hw
      cases ht : minQ t with
      | none => rw [ht] at h; simp only [Option.elim] at h; rw [← h]
      | some u =>
        rw [ht] at h; simp only [Option.elim] at h; rw [← h]
        exact min_le_left ..
    · cases ht : minQ t with
      | none =>
        cases t with
        | nil => simp at hw
        | cons a b => simp [minQ] at ht
      | some u =>
        rw [ht] at h; simp only [Option.elim] at h; rw [← h]
        exact le_trans (min_le_right ..) (ih u ht w hw)

theorem maxQ_of_nonneg (l : List ℚ) (hne : l ≠ []) (h : ∀ v ∈ l, 0 ≤ v) :
    maxQ l = some (l.foldl max 0) := by
  cases hq : maxQ l with
  | none =>
    cases l with
    | nil => exact absurd rfl hne
    | cons v t => simp [maxQ] at hq
  | some m =>
    rw [foldl_max_eq_maxQ, hq]
    simp only [Option.elim]
    rw [max_eq_right (h m (maxQ_mem l m hq))]

/-- Invariant of the line-grouping fold: members carry their stripped,
non-empty text; `minX` is the running minimum of member `x0`; `maxX` is
the max-fold from 0 of member `x1`. -/
theorem lineFold_inv (raw : List RawSpan) (st : LineSt)
    (h1 : ∀ m ∈ st.members, m.text = pyStrip m.span.text ∧ m.text.isEmpty = false)
    (h2 : st.minX = minQ (st.members.map (fun m => m.span.bbox.x0)))
    (h3 : st.maxX = (st.members.map (fun m => m.span.bbox.x1)).foldl max 0) :
    (∀ m ∈ (raw.foldl lineStep st).members,
        m.text = pyStrip m.span.text ∧ m.text.isEmpty = false) ∧
    (raw.foldl lineStep st).minX
        = minQ (((raw.foldl lineStep st).members).map (fun m => m.span.bbox.x0)) ∧
    (raw.foldl lineStep st).maxX
        = (((raw.foldl lineStep st).members).map (fun m => m.span.bbox.x1)).foldl max 0 := by
  induction raw generalizing st with
  | nil => exact ⟨h1, h2, h3⟩
  | cons s rest ih =>
    rw [List.foldl_cons]
    refine ih (lineStep st s) ?_ ?_ ?_
    · simp only [lineStep]
      split
      · exact h1
      · split
        · intro m hm
          rcases List.mem_append.mp hm with hm | hm
          · exact h1 m hm
          · rw [List.mem_singleton.mp hm]
            refine ⟨rfl, ?_⟩
            show (pyStrip s.text).isEmpty = false
            rw [← Bool.not_eq_true]
            assumption
        · exact h1
    · simp only [lineStep]
      split
      · exact h2
      · split
        · simp only [List.map_append, List.map_cons, List.map_nil, minQ_append_one]
          rw [h2]
          cases minQ (st.members.map (fun m => m.span.bbox.x0)) <;> simp
        · exact h2
    · simp only [lineStep]
      split
      · exact h3
      · split
        · simp only [List.map_append, List.map_cons, List.map_nil, List.foldl_append,
            List.foldl_cons, List.foldl_nil]
          rw [h3]
        · exact h3

/-- What `buildLine` guarantees about a produced Line. -/
theorem buildLine_spec (raw : RawLine) (ld : LineData) (h : buildLine raw = some ld) :
    ld.spans ≠ [] ∧
    (∀ m ∈ ld.spans, m.text = pyStrip m.span.text ∧ m.text.isEmpty = false) ∧
    minQ (ld.spans.map (fun m => m.span.bbox.x0)) = some ld.minX ∧
    ld.maxX = (ld.spans.map (fun m => m.span.bbox.x1)).foldl max 0 := by
  have hinv := lineFold_inv raw lineInit
    (by simp [lineInit]) (by simp [lineInit, minQ]) (by simp [lineInit])
  simp only [buildLine] at h
  split at h
  · simp at h
  · rename_i hcond
    rw [Bool.not_eq_true, Bool.or_eq_false_iff] at hcond
    cases hY : (raw.foldl lineStep lineInit).lineY with
    | none =>
      rw [hY] at h
      cases hX : (raw.foldl lineStep lineInit).minX with
      | none => rw [hX] at h; dsimp only at h; simp at h
      | some mx => rw [hX] at h; dsimp only at h; simp at h
    | some y =>
      cases hX : (raw.foldl lineStep lineInit).minX with
      | none => rw [hY, hX] at h; dsimp only at h; simp at h
      | some mx =>
        rw [hY, hX] at h
        dsimp only at h
        rw [Option.some.injEq] at h
        subst h
        dsimp only
        refine ⟨?_, hinv.1, ?_, hinv.2.2⟩
        · intro hnil
          rw [hnil] at hcond
          simp at hcond
        · rw [← hinv.2.1]
          exact hX

/-- A span selected by span-level matching has non-empty stripped text
(empty spans are skipped, line 298-300). -/
theorem spanStep_text (old : String) (tx ty : ℚ) (acc : Option SpanPick) (s : RawSpan)
    (hacc : ∀ b, acc = some b → b.text.isEmpty = false) :
    ∀ b, spanStep old tx ty acc s = some b → b.text.isEmpty = false := by
  intro b hb
  simp only [spanStep] at hb
  split at hb
  · exact hacc b hb
  · split at hb
    · split at hb
      · rw [Option.some.injEq] at hb
        subst hb
        rename_i hemp _ _
        simp only [Bool.not_eq_true] at hemp
        exact hemp
      · exact hacc b hb
    · exact hacc b hb

theorem spanFold_text (old : String) (tx ty : ℚ) (l : List RawSpan) (acc : Option SpanPick)
    (hacc : ∀ b, acc = some b → b.text.isEmpty = false) :
    ∀ b, l.foldl (spanStep old tx ty) acc = some b → b.text.isEmpty = false := by
  induction l generalizing acc with
  | nil => exact hacc
  | cons s rest ih =>
    rw [List.foldl_cons]
    exact ih (spanStep old tx ty acc s) (spanStep_text old tx ty acc s hacc)

theorem spanMatch_text (old : String) (tx ty : ℚ) (page : List RawLine) (sp : SpanPick)
    (h : spanMatch old tx ty page = some sp) : sp.text.isEmpty = false := by
  exact spanFold_text old tx ty _ none (by intro b hb; cases hb) sp h

/-- C9 (amended): every Line built by span-and-line grouping has at least
one member span; every member has non-empty stripped text (empty spans
are excluded from membership, and span-level matching never selects an
empty span); the Line box's `x0`/`y0` are the true minima over the member
spans; its `x1`/`y1` come from a max-fold started at 0 and therefore
equal the union maxima whenever the member `x1`/`y1` are non-negative. -/
theorem C9_line_union (page : List RawLine) (ld : LineData)
    (hmem : ld ∈ buildLines page) :
    ld.spans ≠ [] ∧
    (∀ m ∈ ld.spans, m.text = pyStrip m.span.text ∧ m.text.isEmpty = false) ∧
    minQ (ld.spans.map (fun m => m.span.bbox.x0)) = some ld.minX ∧
    (∀ m ∈ ld.spans, (lineBBoxY0 ld).getD 0 ≤ m.span.bbox.y0) ∧
    (lineBBoxY0 ld).getD 0 ∈ ld.spans.map (fun m => m.span.bbox.y0) ∧
    ((∀ m ∈ ld.spans, 0 ≤ m.span.bbox.x1) →
      maxQ (ld.spans.map (fun m => m.span.bbox.x1)) = some ld.maxX) ∧
    ((∀ m ∈ ld.spans, 0 ≤ m.span.bbox.y1) →
      maxQ (ld.spans.map (fun m => m.span.bbox.y1)) = some (lineBBoxY1 ld)) ∧
    (∀ (old : String) (tx ty : ℚ) (page' : List RawLine) (sp : SpanPick),
      spanMatch old tx ty page' = some sp → sp.text.isEmpty = false) := by
  obtain ⟨raw, hraw, hbl⟩ := List.mem_filterMap.mp hmem
  obtain ⟨hne, htexts, hminx, hmaxx⟩ := buildLine_spec raw ld hbl
  have hymapne : ld.spans.map (fun m => m.span.bbox.y0) ≠ [] := by
    intro hx
    exact hne (List.map_eq_nil_iff.mp hx)
  have hy0 : (minQ (ld.spans.map (fun m => m.span.bbox.y0))).isSome = true := by
    cases hmap : ld.spans.map (fun m => m.span.bbox.y0) with
    | nil => exact absurd hmap hymapne
    | cons a b => simp [minQ]
  obtain ⟨y0v, hy0v⟩ := Option.isSome_iff_exists.mp hy0
  refine ⟨hne, htexts, hminx, ?_, ?_, ?_, ?_,
    fun old tx ty page' sp h => spanMatch_text old tx ty page' sp h⟩
  · intro m hm
    rw [lineBBoxY0, hy0v]
    exact minQ_le _ y0v hy0v _ (List.mem_map_of_mem _ hm)
  · rw [lineBBoxY0, hy0v]
    exact minQ_mem _ y0v hy0v
  · intro hnn
    rw [hmaxx]
    refine maxQ_of_nonneg _ (by intro hx; exact hne (List.map_eq_nil_iff.mp hx)) ?_
    intro v hv
    obtain ⟨m, hm, hmv⟩ := List.mem_map.mp hv
    rw [← hmv]
    exact hnn m hm
  · intro hnn
    rw [lineBBoxY1]
    refine maxQ_of_nonneg _ (by intro hx; exact hne (List.map_eq_nil_iff.mp hx)) ?_
    intro v hv
    obtain ⟨m, hm, hmv⟩ := List.mem_map.mp hv
    rw [← hmv]
    exact hnn m hm

/-- C9 counterexample: a member span with negative `x1` — the code's
`line_max_x` starts at 0, so the Line box's right edge is 0 while the
union of the member boxes has right edge -5; the Line bounding box is not
the union of its member spans' boxes. -/
theorem C9_counterexample :
    ((buildLines c9pageNeg).map
      (fun ld => (ld.maxX, maxQ (ld.spans.map (fun m => m.span.bbox.x1)))))
      = [(0, some (-5))] ∧
    (0 : ℚ) ≠ -5 := by
  constructor
  · with_unfolding_all decide
  · with_unfolding_all decide

/-- C9 witness: the invariants evaluated on a concrete one-span page with
ordinary non-negative coordinates. -/
theorem C9_witness :
    c9line.spans ≠ [] ∧
    minQ (c9line.spans.map (fun m => m.span.bbox.x0)) = some c9line.minX ∧
    maxQ (c9line.spans.map (fun m => m.span.bbox.x1)) = some c9line.maxX := by
  have hmem : c9line ∈ buildLines c9pagePos := by with_unfolding_all decide
  have h := C9_line_union c9pagePos c9line hmem
  exact ⟨h.1, h.2.2.1, h.2.2.2.2.2.1 (by with_unfolding_all decide)⟩

end PdfReplace

namespace PdfReplace

/-- Selection by steps 1-2 of the line matcher when the first `pre` lines
match neither exactly nor by containment and `ld` matches exactly. -/
theorem lineMatch12_exact_first (old : String) (pre post : List LineData) (ld : LineData)
    (hex : lineExact old ld = true)
    (hpre : ∀ p ∈ pre, lineExact old p = false ∧
      substrOf (normalizeText old).toLower (normalizeText p.text).toLower = false ∧
      substrOf (normalizeText p.text).toLower (normalizeText old).toLower = false) :
    lineMatch12 old (pre ++ ld :: post) = some (ld, 0) := by
  induction pre with
  | nil =>
    rw [List.nil_append]
    simp only [lineExact] at hex
    simp only [lineMatch12, hex]
    simp
  | cons q rest ih =>
    obtain ⟨h1, h2, h3⟩ := hpre q (List.mem_cons_self ..)
    simp only [lineExact] at h1
    rw [List.cons_append]
    simp only [lineMatch12, h1, h2, h3]
    simp only [Bool.false_eq_true, if_false]
    exact ih (fun p hp => hpre p (List.mem_cons_of_mem _ hp))

/-- C1 (amended): the line matcher scans Lines in page order and stops at
the first Line matching exactly or by containment, exact checked first
within each Line.  When the normalized `oldText` equals some Line's
normalized text and no earlier Line matches exactly or by containment,
that Line is selected with score 0.  (An earlier Line matching only by
containment is selected, with score 1, in preference to a later exact
match.) -/
theorem C1_exact_first (old : String) (tx ty : ℚ) (pre post : List LineData) (ld : LineData)
    (hlr : isLineReplacement old = true)
    (hex : lineExact old ld = true)
    (hpre : ∀ p ∈ pre, lineExact old p = false ∧
      substrOf (normalizeText old).toLower (normalizeText p.text).toLower = false ∧
      substrOf (normalizeText p.text).toLower (normalizeText old).toLower = false) :
    lineMatchFull old tx ty (pre ++ ld :: post) = some (ld, 0) := by
  rw [lineMatchFull, if_pos hlr, lineMatch12_exact_first old pre post ld hex hpre]

/-- C1 counterexample: `oldText = "a b"` against a page whose first Line
is "zab" (containment) and second Line is "a b" (exact): matching stops at
the first Line with score 1, so exact normalized equality does not take
precedence over substring containment on an earlier Line, contradicting
the claim that the exactly-equal Line is selected with score 0. -/
theorem C1_counterexample :
    ((lineMatchFull "a b" 0 0 (buildLines c1page)).map (fun r => (r.1.text, r.2))
      = some ("zab", 1)) ∧
    ((buildLines c1page).map (fun ld => lineExact "a b" ld)) = [false, true] := by
  constructor
  · with_unfolding_all decide
  · with_unfolding_all decide

/-- C1 witness: on a one-Line page whose Line matches exactly, the matcher
returns that Line with score 0. -/
theorem C1_witness : lineMatchFull "a b" 0 0 [c9line] = some (c9line, 0) := by
  have h := C1_exact_first "a b" 0 0 [] [] c9line (by decide)
    (by with_unfolding_all decide) (by intro p hp; simp at hp)
  rw [List.nil_append] at h
  exact h

/-- A line accepted by the step-3 fuzzy test has non-empty character sets
and either strict Jaccard similarity above 4/5 or a substring relation. -/
theorem fuzzyAccept_char (old : String) (ld : LineData) (h : fuzzyAccept old ld = true) :
    charFinset (normalizeText old).toLower ≠ ∅ ∧
    charFinset (normalizeText ld.text).toLower ≠ ∅ ∧
    ((4 : ℚ)/5 < jaccardSim (charFinset (normalizeText old).toLower)
        (charFinset (normalizeText ld.text).toLower) ∨
      substrOf (normalizeText old).toLower (normalizeText ld.text).toLower = true ∨
      substrOf (normalizeText ld.text).toLower (normalizeText old).toLower = true) := by
  simp only [fuzzyAccept] at h
  split at h
  · rename_i hcond
    refine ⟨hcond.1, hcond.2, ?_⟩
    have h' := h
    simp only [Bool.or_eq_true, decide_eq_true_eq] at h'
    exact or_assoc.mp h'
  · simp at h

/-- Any line selected by step 3 was accepted by the fuzzy test (so a line
below the strict threshold with no substring relation is never selected),
and its score is 2. -/
theorem fuzzyMatch_sound (old : String) (lines : List LineData) (ld : LineData) (s : ℚ)
    (h : fuzzyMatch old lines = some (ld, s)) :
    s = 2 ∧ ld ∈ lines ∧ fuzzyAccept old ld = true := by
  induction lines with
  | nil => simp [fuzzyMatch] at h
  | cons q rest ih =>
    rw [fuzzyMatch] at h
    split at h
    · rename_i hacc
      rw [Option.some.injEq, Prod.mk.injEq] at h
      refine ⟨h.2.symm, ?_, ?_⟩
      · rw [← h.1]
        exact List.mem_cons_self ..
      · rw [← h.1]
        exact hacc
    · obtain ⟨h1, h2, h3⟩ := ih h
      exact ⟨h1, List.mem_cons_of_mem _ h2, h3⟩

/-- Step 3 selects the first accepted line with score 2. -/
theorem fuzzyMatch_first (old : String) (pre post : List LineData) (ld : LineData)
    (hpre : ∀ p ∈ pre, fuzzyAccept old p = false) (hacc : fuzzyAccept old ld = true) :
    fuzzyMatch old (pre ++ ld :: post) = some (ld, 2) := by
  induction pre with
  | nil =>
    rw [List.nil_append, fuzzyMatch, if_pos hacc]
  | cons q rest ih =>
    rw [List.cons_append, fuzzyMatch]
    rw [hpre q (List.mem_cons_self ..)]
    simp only [Bool.false_eq_true, if_false]
    exact ih (fun p hp => hpre p (List.mem_cons_of_mem _ hp))

/-- C4 (amended): step 3 accepts a candidate iff both character sets are
non-empty and either the Jaccard similarity is strictly greater than 0.8
or one normalized form is a substring of the other; every line selected by
step 3 satisfies this (so similarity at or below 0.8 with no substring
relation is never selected), and the first accepted line is selected with
score 2. -/
theorem C4_fuzzy_strict (old : String) (lines pre post : List LineData) (ld : LineData) (s : ℚ) :
    (fuzzyMatch old lines = some (ld, s) →
      s = 2 ∧ ld ∈ lines ∧
      charFinset (normalizeText old).toLower ≠ ∅ ∧
      charFinset (normalizeText ld.text).toLower ≠ ∅ ∧
      ((4 : ℚ)/5 < jaccardSim (charFinset (normalizeText old).toLower)
          (charFinset (normalizeText ld.text).toLower) ∨
        substrOf (normalizeText old).toLower (normalizeText ld.text).toLower = true ∨
        substrOf (normalizeText ld.text).toLower (normalizeText old).toLower = true)) ∧
    ((∀ p ∈ pre, fuzzyAccept old p = false) → fuzzyAccept old ld = true →
      fuzzyMatch old (pre ++ ld :: post) = some (ld, 2)) := by
  constructor
  · intro h
    obtain ⟨h1, h2, h3⟩ := fuzzyMatch_sound old lines ld s h
    obtain ⟨h4, h5, h6⟩ := fuzzyAccept_char old ld h3
    exact ⟨h1, h2, h4, h5, h6⟩
  · exact fuzzyMatch_first old pre post ld

/-- C4 counterexample: `oldText = "ab cd"` (character set {a,b,c,d})
against the single Line "adbce" (character set {a,d,b,c,e}): the Jaccard
similarity is exactly 4/5 = 0.8 and neither normalized form contains the
other, yet the matcher selects nothing — the code's threshold is strictly
greater than 0.8, so "at least 0.8" is false at equality. -/
theorem C4_counterexample :
    lineMatchFull "ab cd" 0 0 (buildLines c4page) = none ∧
    ((buildLines c4page).map (fun ld =>
        (jaccardSim (charFinset (normalizeText "ab cd").toLower)
           (charFinset (normalizeText ld.text).toLower),
         substrOf (normalizeText "ab cd").toLower (normalizeText ld.text).toLower,
         substrOf (normalizeText ld.text).toLower (normalizeText "ab cd").toLower)))
      = [(4/5, false, false)] := by
  constructor
  · with_unfolding_all decide
  · with_unfolding_all decide

/-- C4 witness: the strict-threshold theorem applied to a line whose
similarity is 1 (above the threshold), selected with score 2. -/
theorem C4_witness :
    fuzzyMatch "a b" [c9line] = some (c9line, 2) ∧
    ((4 : ℚ)/5 < jaccardSim (charFinset (normalizeText "a b").toLower)
        (charFinset (normalizeText c9line.text).toLower) ∨
      substrOf (normalizeText "a b").toLower (normalizeText c9line.text).toLower = true ∨
      substrOf (normalizeText c9line.text).toLower (normalizeText "a b").toLower = true) := by
  have h := C4_fuzzy_strict "a b" [c9line] [] [] c9line 2
  have hsel : fuzzyMatch "a b" ([] ++ c9line :: []) = some (c9line, 2) :=
    h.2 (by intro p hp; simp at hp) (by with_unfolding_all decide)
  rw [List.nil_append] at hsel
  exact ⟨hsel, ((h.1 hsel).2.2.2.2)⟩

end PdfReplace

namespace PdfReplace

/-- The last-resort stage never reports the span or line path and never
breaks the per-page request loop. -/
theorem lastStage_path (o : InsOracle) (old : String) (page : List RawLine) :
    (lastStage o old page).path ≠ .spanPath ∧ (lastStage o old page).path ≠ .linePath ∧
    (lastStage o old page).brk = false := by
  induction page with
  | nil => exact ⟨by simp [lastStage], by simp [lastStage], rfl⟩
  | cons raw rest ih =>
    simp only [lastStage]
    split
    · split
      · exact ⟨by simp, by simp, rfl⟩
      · exact ⟨ih.1, ih.2.1, ih.2.2⟩
    · exact ih

/-- The line stage never reports the span path. -/
theorem lineStage_path (o : InsOracle) (page : List RawLine) (tx ty : ℚ) (old : String)
    (acc : List Action) :
    (lineStage o page tx ty old acc).path ≠ .spanPath := by
  rw [lineStage]
  split
  · split
    · simp
    · split
      · exact (lastStage_path o old page).1
      · simp
  · split
    · exact (lastStage_path o old page).1
    · simp

/-- A single-token request with a span match and a succeeding span-path
insertion is resolved by the span path (redact the span box, insert,
break). -/
theorem processRequest_span_used (o : InsOracle) (page : List RawLine) (tx ty : ℚ)
    (old : String) (sp : SpanPick)
    (hlr : isLineReplacement old = false) (hskip : batchSkips old = false)
    (hsp : spanMatch old tx ty page = some sp) (hok : o.spanOk = true) :
    processRequest o page tx ty old = ⟨[spanRedactRect sp, .insertNew], 1, true, .spanPath⟩ := by
  simp [processRequest, hskip, hlr, hsp, hok]

/-- C5 (amended): a request whose oldText contains an internal space
(after stripping) is never resolved by span-level matching; a single-token
request attempts span-level matching first — when a span matches and its
insertion succeeds the span path resolves the request, and the line stage
resolves it only when no span matched or the span-path insertion failed.
Span-level matching is not conditioned on the absence of a line match. -/
theorem C5_span_line_precedence (o : InsOracle) (page : List RawLine) (tx ty : ℚ)
    (old : String) :
    (isLineReplacement old = true → (processRequest o page tx ty old).path ≠ .spanPath) ∧
    (isLineReplacement old = false → batchSkips old = false →
      (∀ sp, spanMatch old tx ty page = some sp → o.spanOk = true →
        (processRequest o page tx ty old).path = .spanPath) ∧
      ((processRequest o page tx ty old).path = .linePath →
        spanMatch old tx ty page = none ∨ o.spanOk = false)) := by
  constructor
  · intro hlr
    rw [processRequest]
    split
    · simp
    · exact lineStage_path o page tx ty old []
  · intro hlr hskip
    constructor
    · intro sp hsp hok
      rw [processRequest_span_used o page tx ty old sp hlr hskip hsp hok]
    · intro hpath
      cases hs : spanMatch old tx ty page with
      | none => exact Or.inl rfl
      | some sp =>
        cases hok : o.spanOk with
        | false => exact Or.inr rfl
        | true =>
          have := processRequest_span_used o page tx ty old sp hlr hskip hs hok
          rw [this] at hpath
          exact absurd hpath (by simp)

/-- C5 counterexample: the single-token request "foo" on a page where both
a span match and a line match exist — span-level matching is attempted
and resolves the request even though a line match exists, so "span-level
matching is attempted only when no Line match exists" is false. -/
theorem C5_counterexample :
    spanAttempted "foo" = true ∧
    (lineMatchFull "foo" 0 0 (buildLines c5page)).isSome = true ∧
    (processRequest oracleAll c5page 0 0 "foo").path = .spanPath := by
  refine ⟨by decide, ?_, ?_⟩
  · with_unfolding_all decide
  · with_unfolding_all decide

/-- C5 witness: the precedence theorem applied to the single-token request
"foo" (span path) and the whitespace request "a b" (never span path). -/
theorem C5_witness :
    (processRequest oracleAll c5page 0 0 "foo").path = .spanPath ∧
    (processRequest oracleAll c5page 0 0 "a b").path ≠ .spanPath := by
  constructor
  · obtain ⟨sp, hsp⟩ := Option.isSome_iff_exists.mp
      (show (spanMatch "foo" 0 0 c5page).isSome = true by with_unfolding_all decide)
    exact ((C5_span_line_precedence oracleAll c5page 0 0 "foo").2 (by decide) (by decide)).1
      sp hsp rfl
  · exact (C5_span_line_precedence oracleAll c5page 0 0 "a b").1 (by decide)

/-- When no raw line matches the last-resort test the stage does nothing. -/
theorem lastStage_none (o : InsOracle) (old : String) (page : List RawLine)
    (h : ∀ raw ∈ page, lastLineMatch old raw = none) :
    lastStage o old page = ⟨[], 0, false, .nonePath⟩ := by
  induction page with
  | nil => rfl
  | cons raw rest ih =>
    simp only [lastStage]
    rw [h raw (List.mem_cons_self ..)]
    exact ih (fun r hr => h r (List.mem_cons_of_mem _ hr))

/-- C7: a request whose oldText matches no candidate (no span match, no
line match, no last-resort match) performs no redaction or insertion,
contributes 0 to the replacement count, does not break the loop, and the
run (with an existing file and a non-empty request list) still reports
success. -/
theorem C7_not_found (o : InsOracle) (page : List RawLine) (tx ty : ℚ) (old : String)
    (reqs : List Req)
    (h1 : spanMatch old tx ty page = none)
    (h2 : lineMatchFull old tx ty (buildLines page) = none)
    (h3 : ∀ raw ∈ page, lastLineMatch old raw = none) :
    processRequest o page tx ty old = ⟨[], 0, false, .nonePath⟩ ∧
    (reqs ≠ [] → replaceRunSucceeds true reqs = true) := by
  constructor
  · have hls : lineStage o page tx ty old [] = ⟨[], 0, false, .nonePath⟩ := by
      rw [lineStage, h2]
      dsimp only
      by_cases hil : isLineReplacement old = true
      · rw [if_pos hil, lastStage_none o old page h3]
        rfl
      · rw [if_neg hil]
    rw [processRequest]
    split
    · rfl
    · by_cases hil : isLineReplacement old = true
      · rw [if_pos hil]
        exact hls
      · rw [if_neg hil, h1]
        exact hls
  · intro hne
    simp [replaceRunSucceeds, List.isEmpty_iff, hne]

/-- C7 witness: a request for text absent from the page leaves everything
untouched and the run still succeeds. -/
theorem C7_witness :
    processRequest oracleAll [] 0 0 "zzz" = ⟨[], 0, false, .nonePath⟩ ∧
    replaceRunSucceeds true [⟨"a", "b", 1, 0, 0, 0, 0⟩] = true := by
  have h := C7_not_found oracleAll [] 0 0 "zzz" [⟨"a", "b", 1, 0, 0, 0, 0⟩]
    (by with_unfolding_all decide) (by with_unfolding_all decide)
    (by intro raw hr; simp at hr)
  exact ⟨h.1, h.2 (by decide)⟩

/-- C8 (amended): in single-pair mode an oldText that is empty after
stripping is rejected immediately with failure; in JSON batch mode only
the strictly empty oldText string is skipped (with no effect on the page
or the count) — a whitespace-only oldText is not skipped and proceeds to
matching. -/
theorem C8_empty_guards (fe : Bool) (s : String) :
    ((pyStrip s).isEmpty = true → replaceTextInPdfEarly fe s = some false) ∧
    (batchSkips s = true ↔ s = "") ∧
    (∀ (o : InsOracle) (page : List RawLine) (tx ty : ℚ),
      processRequest o page tx ty "" = ⟨[], 0, false, .nonePath⟩) := by
  refine ⟨?_, ?_, ?_⟩
  · intro h
    rw [replaceTextInPdfEarly]
    cases fe with
    | false => rfl
    | true =>
      simp only [Bool.not_true, Bool.false_eq_true, if_false]
      rw [h]
      simp
  · rw [batchSkips]
    exact String.isEmpty_iff s
  · intro o page tx ty
    rfl

/-- C8 counterexample: the whitespace-only oldText `" "` is empty after
trimming, yet in batch mode it is not skipped (the guard is `if not
old_text`, true only for the empty string) and on a page with one line it
even matches (the empty normalized text is a substring of every line) and
performs a replacement. -/
theorem C8_counterexample :
    pyStrip " " = "" ∧
    batchSkips " " = false ∧
    (processRequest oracleAll c5page 0 0 " ").delta = 1 ∧
    (processRequest oracleAll c5page 0 0 " ").path = .linePath := by
  refine ⟨by decide, by decide, ?_, ?_⟩
  · with_unfolding_all decide
  · with_unfolding_all decide

/-- C8 witness: the guard theorem applied to the blank string (single-pair
rejection) and the empty string (batch skip with no effect). -/
theorem C8_witness :
    replaceTextInPdfEarly true " " = some false ∧
    batchSkips "" = true ∧
    processRequest oracleAll [] 0 0 "" = ⟨[], 0, false, .nonePath⟩ := by
  refine ⟨(C8_empty_guards true " ").1 (by decide), ?_, (C8_empty_guards true "").2.2 oracleAll [] 0 0⟩
  exact ((C8_empty_guards true "").2.1).mpr rfl

end PdfReplace

namespace PdfReplace

theorem any_key_iff (acc : List (Nat × List Req)) (k : Nat) :
    acc.any (fun e => e.1 == k) = true ↔ k ∈ acc.map Prod.fst := by
  simp only [List.any_eq_true, List.mem_map, beq_iff_eq]

theorem mapUpdate_keys (acc : List (Nat × List Req)) (r : Req) :
    (acc.map (fun e => if e.1 == reqKey r then (e.1, e.2 ++ [r]) else e)).map Prod.fst
      = acc.map Prod.fst := by
  rw [List.map_map]
  apply List.map_congr_left
  intro e _
  by_cases h : (e.1 == reqKey r) = true
  · rw [Function.comp_apply, if_pos h]
  · rw [Function.comp_apply, if_neg h]

/-- Inserting a request keeps the key list unless the key is new, in which
case the key is appended (Python dict insertion semantics, lines 214-216). -/
theorem groupInsert_keys (acc : List (Nat × List Req)) (r : Req) :
    (groupInsert acc r).map Prod.fst =
      if reqKey r ∈ acc.map Prod.fst then acc.map Prod.fst
      else acc.map Prod.fst ++ [reqKey r] := by
  rw [groupInsert]
  by_cases h : reqKey r ∈ acc.map Prod.fst
  · rw [if_pos ((any_key_iff acc (reqKey r)).mpr h), mapUpdate_keys, if_pos h]
  · rw [if_neg (fun hc => h ((any_key_iff acc (reqKey r)).mp hc)), if_neg h]
    simp

/-- Key list of the whole grouping fold: the accumulator's keys followed
by the first occurrences of the new keys. -/
theorem foldl_groupInsert_keys (rs : List Req) (acc : List (Nat × List Req)) :
    (rs.foldl groupInsert acc).map Prod.fst =
      acc.map Prod.fst
        ++ (firstKeys (rs.map reqKey)).filter (fun q => !(acc.map Prod.fst).contains q) := by
  induction rs generalizing acc with
  | nil => simp [firstKeys]
  | cons r rest ih =>
    rw [List.foldl_cons, ih (groupInsert acc r), groupInsert_keys]
    by_cases h : reqKey r ∈ acc.map Prod.fst
    · rw [if_pos h, List.map_cons]
      rw [show firstKeys (reqKey r :: rest.map reqKey)
          = reqKey r :: (firstKeys (rest.map reqKey)).filter (fun q => q != reqKey r) from rfl]
      rw [List.filter_cons]
      have hcontains : (acc.map Prod.fst).contains (reqKey r) = true := by
        rw [List.contains_eq_any_beq, List.any_eq_true]
        exact ⟨reqKey r, h, by simp⟩
      rw [hcontains]
      simp only [Bool.not_true, Bool.false_eq_true, if_false]
      rw [List.filter_filter]
      congr 1
      apply List.filter_congr
      intro q _
      by_cases hq : q = reqKey r
      · subst hq
        rw [hcontains]
        simp
      · have hb : (q != reqKey r) = true := by simp [hq]
        rw [hb]
        simp
    · rw [if_neg h, List.map_cons]
      rw [show firstKeys (reqKey r :: rest.map reqKey)
          = reqKey r :: (firstKeys (rest.map reqKey)).filter (fun q => q != reqKey r) from rfl]
      rw [List.filter_cons]
      have hcontains : (acc.map Prod.fst).contains (reqKey r) = false := by
        rw [← Bool.not_eq_true, List.contains_eq_any_beq, List.any_eq_true]
        rintro ⟨e, he, heq⟩
        exact h (by rw [beq_iff_eq] at heq; rw [← heq] at he; exact he)
      rw [hcontains]
      simp only [Bool.not_false, if_true]
      rw [List.filter_filter, List.append_assoc, List.cons_append, List.nil_append]
      congr 2
      apply List.filter_congr
      intro q _
      simp only [List.contains_eq_any_beq, List.any_append, List.any_cons, List.any_nil,
        Bool.or_false, Bool.not_or, bne]

theorem lookup_mapUpdate (acc : List (Nat × List Req)) (r : Req) (p : Nat) :
    List.lookup p (acc.map (fun e => if e.1 == reqKey r then (e.1, e.2 ++ [r]) else e)) =
      if p = reqKey r then (List.lookup p acc).map (fun l => l ++ [r])
      else List.lookup p acc := by
  induction acc with
  | nil =>
    simp only [List.map_nil, List.lookup]
    split <;> rfl
  | cons e rest ih =>
    obtain ⟨k, v⟩ := e
    simp only [List.map_cons]
    by_cases hk : k = reqKey r
    · rw [show ((if (k == reqKey r) = true then (k, v ++ [r]) else (k, v)) : Nat × List Req)
          = (k, v ++ [r]) from by simp [hk]]
      by_cases hp : p = k
      · subst hp
        simp [List.lookup, hk]
      · have hb : (p == k) = false := by simp [hp]
        simp only [List.lookup, hb, ih]
    · rw [show ((if (k == reqKey r) = true then (k, v ++ [r]) else (k, v)) : Nat × List Req)
          = (k, v) from by simp [hk]]
      by_cases hp : p = k
      · subst hp
        simp [List.lookup, hk]
      · have hb : (p == k) = false := by simp [hp]
        simp only [List.lookup, hb, ih]

theorem lookup_eq_none_iff (acc : List (Nat × List Req)) (p : Nat) :
    List.lookup p acc = none ↔ p ∉ acc.map Prod.fst := by
  induction acc with
  | nil => simp [List.lookup]
  | cons e rest ih =>
    obtain ⟨k, v⟩ := e
    by_cases hp : p = k
    · subst hp
      simp [List.lookup]
    · have hb : (p == k) = false := by simp [hp]
      simp only [List.lookup, hb, ih, List.map_cons, List.mem_cons]
      simp [hp]

theorem lookup_append_one (acc : List (Nat × List Req)) (k : Nat) (l : List Req) (p : Nat) :
    List.lookup p (acc ++ [(k, l)]) =
      (match List.lookup p acc with
        | some v => some v
        | none => if p = k then some l else none) := by
  induction acc with
  | nil =>
    by_cases hp : p = k
    · have hb : (p == k) = true := by simp [hp]
      simp [List.lookup, hb, hp]
    · have hb : (p == k) = false := by simp [hp]
      simp [List.lookup, hb, hp]
  | cons e rest ih =>
    obtain ⟨k', v⟩ := e
    by_cases hp : p = k'
    · have hb : (p == k') = true := by simp [hp]
      simp [List.lookup, hb]
    · have hb : (p == k') = false := by simp [hp]
      simp only [List.cons_append, List.lookup, hb]
      exact ih

/-- Lookup after one grouping insertion. -/
theorem lookup_groupInsert (acc : List (Nat × List Req)) (r : Req) (p : Nat) :
    List.lookup p (groupInsert acc r) =
      if p = reqKey r then
        (match List.lookup p acc with
          | some l => some (l ++ [r])
          | none => some [r])
      else List.lookup p acc := by
  rw [groupInsert]
  by_cases h : reqKey r ∈ acc.map Prod.fst
  · rw [if_pos ((any_key_iff acc (reqKey r)).mpr h), lookup_mapUpdate]
    by_cases hp : p = reqKey r
    · rw [if_pos hp, if_pos hp]
      cases hl : List.lookup p acc with
      | none => exact absurd (hp.symm ▸ h) ((lookup_eq_none_iff acc p).mp hl)
      | some l => rfl
    · rw [if_neg hp, if_neg hp]
  · rw [if_neg (fun hc => h ((any_key_iff acc (reqKey r)).mp hc)), lookup_append_one]
    by_cases hp : p = reqKey r
    · subst hp
      have hnone : List.lookup (reqKey r) acc = none :=
        (lookup_eq_none_iff acc (reqKey r)).mpr h
      rw [hnone]
    · simp only [if_neg hp]
      cases hl : List.lookup p acc with
      | none => rfl
      | some l => rfl

/-- Lookup in the full grouping fold: an existing group is extended by the
requests with that key in order; a fresh group holds exactly them. -/
theorem lookup_foldl_group (rs : List Req) (acc : List (Nat × List Req)) (p : Nat) :
    List.lookup p (rs.foldl groupInsert acc) =
      (match List.lookup p acc with
        | some l₀ => some (l₀ ++ rs.filter (fun r => reqKey r == p))
        | none =>
          if p ∈ rs.map reqKey then some (rs.filter (fun r => reqKey r == p)) else none) := by
  induction rs generalizing acc with
  | nil =>
    rw [List.foldl_nil]
    cases hl : List.lookup p acc with
    | none => simp
    | some l₀ => simp
  | cons r rest ih =>
    rw [List.foldl_cons, ih (groupInsert acc r), lookup_groupInsert]
    by_cases hp : p = reqKey r
    · rw [if_pos hp]
      have hbeq : (reqKey r == p) = true := by simp [hp]
      cases hl : List.lookup p acc with
      | some l₀ =>
        simp only [List.filter_cons, hbeq, if_true]
        rw [List.append_assoc]
        rfl
      | none =>
        simp only [List.filter_cons, hbeq, if_true]
        rw [if_pos (by rw [hp, List.map_cons]; exact List.mem_cons_self ..)]
        rfl
    · rw [if_neg hp]
      have hbeq : (reqKey r == p) = false := by
        simp only [beq_eq_false_iff_ne]
        exact fun hc => hp hc.symm
      cases hl : List.lookup p acc with
      | some l₀ =>
        simp only [List.filter_cons, hbeq, Bool.false_eq_true, if_false]
      | none =>
        simp only [List.filter_cons, hbeq, Bool.false_eq_true, if_false, List.map_cons]
        by_cases hm : p ∈ rest.map reqKey
        · rw [if_pos hm, if_pos (List.mem_cons_of_mem _ hm)]
        · have hnot : p ∉ reqKey r :: rest.map reqKey := by
            rw [List.mem_cons]
            rintro (hc | hc)
            · exact hp hc
            · exact hm hc
          rw [if_neg hm, if_neg hnot]

end PdfReplace

namespace PdfReplace

/-- The per-page loop examines requests in order up to and including the
first one whose processing breaks the loop. -/
theorem runPage_takeThrough (o : InsOracle) (pg : Page) (rs : List Req) :
    (runPage o pg rs).1 = takeThrough (reqBreaks o pg) rs := by
  induction rs with
  | nil => rfl
  | cons r rest ih =>
    simp only [runPage, takeThrough, reqBreaks]
    split
    · rfl
    · simp only [List.cons.injEq, true_and]
      exact ih

/-- C2 (amended): requests are processed grouped by page, not in raw caller
order — the groups' pages appear in order of each page's first occurrence
in the caller's list; within a page the group holds exactly that page's
requests in caller-supplied order; and the per-page loop runs them in that
order, stopping after the first request resolved by the span or line path.
All of a page's requests are matched against the single snapshot
(`pg.content`) taken before any of that page's redactions. -/
theorem C2_grouped_order (reqs : List Req) (p : Nat) (o : InsOracle) (pg : Page)
    (rs : List Req) :
    (groupByPage reqs).map Prod.fst = firstKeys (reqs.map reqKey) ∧
    List.lookup p (groupByPage reqs) =
      (if p ∈ reqs.map reqKey then some (reqs.filter (fun r => reqKey r == p)) else none) ∧
    (runPage o pg rs).1 = takeThrough (reqBreaks o pg) rs := by
  refine ⟨?_, ?_, runPage_takeThrough o pg rs⟩
  · rw [groupByPage, foldl_groupInsert_keys]
    simp
  · rw [groupByPage, lookup_foldl_group]
    rfl

/-- C2 counterexample: requests interleaving two pages — `[r1@page1,
r2@page2, r3@page1]` — are examined in the order `r1, r3, r2` (grouped by
page), not in the caller-supplied list order `r1, r2, r3`, so requests are
not processed exactly in caller-supplied list order. -/
theorem C2_counterexample :
    (examinedOrder oracleAll c2doc c2reqs).map (fun r => r.oldText) = ["a", "c", "b"] ∧
    (c2reqs.filter (validReq c2doc.length)).map (fun r => r.oldText) = ["a", "b", "c"] ∧
    examinedOrder oracleAll c2doc c2reqs ≠ c2reqs.filter (validReq c2doc.length) := by
  refine ⟨?_, ?_, ?_⟩
  · with_unfolding_all decide
  · with_unfolding_all decide
  · with_unfolding_all decide

end PdfReplace
